import Mathlib

/-!
Verification of the Attractor pipeline engine and agent loop.

This file gives a shallow embedding, in Lean 4, of the parts of the
repository that the verified properties talk about:

* `pkg/pipeline/engine.go` — edge selection, condition evaluation,
  retry policy, the goal-gate terminal check and the run loop;
* `pkg/agent/types.go` — the session submit loop, follow-up queue,
  tool-output truncation and the loop detector;
* the llm retry helper (`RetryConfig.DelayForAttempt` / `Retry`);
* the model stylesheet applicator;
* the Gemini `StreamAccumulator`.

Conventions: Go strings are Lean `String`s; Go's byte-wise string
operations are modelled on `List Char` (UTF-8 byte order and code-point
order agree, and the repository's identifiers are ASCII).  All string
helpers are written by structural recursion so that every definition
evaluates inside the kernel.  Go `float64` arithmetic in the backoff
computation is modelled by exact rationals `ℚ`; `rand.Float64()` is an
explicit oracle argument `j ∈ [0,1)`; Go maps that are only read through
point lookups are association lists; side effects that do not influence
the verified properties (event emission, checkpoint files, sleeping) are
dropped.  Go `for` loops that may run unboundedly are given explicit
fuel; every theorem below holds for every fuel value.
-/

namespace Attractor

/-! ## Kernel-computable string helpers

Go's `strings` package functions, modelled on `List Char` / `String`. -/

/-- Go's byte-wise `<` on strings, as code-point comparison. -/
def charLt (a b : Char) : Bool := a.toNat < b.toNat

/-- Lexicographic order on char lists — Go's `<` on strings. -/
def listLt : List Char → List Char → Bool
  | [], [] => false
  | [], _ :: _ => true
  | _ :: _, [] => false
  | a :: as, b :: bs => if a = b then listLt as bs else charLt a b

/-- Go `s < t` on strings. -/
def strLt (a b : String) : Bool := listLt a.data b.data

/-- Go `s <= t` on strings. -/
def strLe (a b : String) : Bool := !(strLt b a)

/-- The ASCII white-space bytes trimmed by `strings.TrimSpace`. -/
def isGoSpace (c : Char) : Bool :=
  c = ' ' || c = '\t' || c = '\n' || c = '\r' || c = Char.ofNat 11 || c = Char.ofNat 12

/-- `strings.TrimSpace` on a char list. -/
def trimL (s : List Char) : List Char :=
  ((s.dropWhile isGoSpace).reverse.dropWhile isGoSpace).reverse

/-- `strings.TrimSpace`. -/
def strTrim (s : String) : String := String.mk (trimL s.data)

/-- `strings.Split` with a one-byte separator. -/
def split1 (a : Char) : List Char → List (List Char)
  | [] => [[]]
  | c :: rest =>
    if c = a then [] :: split1 a rest
    else
      match split1 a rest with
      | [] => [[c]]
      | p :: ps => (c :: p) :: ps

/-- `strings.Split` with a two-byte separator (left-most match first, as
in Go). -/
def split2 (a b : Char) : List Char → List (List Char)
  | [] => [[]]
  | [c] => [[c]]
  | c :: d :: rest =>
    if c = a ∧ d = b then [] :: split2 a b rest
    else
      match split2 a b (d :: rest) with
      | [] => [[c]]
      | p :: ps => (c :: p) :: ps

/-- `strings.ToLower` on ASCII. -/
def lowerL (s : List Char) : List Char :=
  s.map fun c => if 'A' ≤ c ∧ c ≤ 'Z' then Char.ofNat (c.toNat + 32) else c

/-! ## Pipeline data model (`pkg/pipeline/types.go`) -/

/-- `StageStatus` of `pkg/pipeline/types.go`. -/
inductive StageStatus where
  | success
  | partialSuccess
  | retry
  | fail
  | skipped
deriving DecidableEq, Repr

/-- The Go `string(status)` conversion (the constants' literal values). -/
def statusString : StageStatus → String
  | .success => "success"
  | .partialSuccess => "partial_success"
  | .retry => "retry"
  | .fail => "fail"
  | .skipped => "skipped"

/-- `Outcome` of `pkg/pipeline/types.go`.  Context-update values are
modelled as the strings they are rendered to by `fmt.Sprint`. -/
structure Outcome where
  status : StageStatus
  preferredLabel : String := ""
  suggestedNextIDs : List String := []
  contextUpdates : List (String × String) := []
  notes : String := ""
  failureReason : String := ""
deriving DecidableEq, Repr

/-- `Node` of `pkg/pipeline/types.go` (the fields the engine and the
stylesheet read).  `class` is a Lean keyword, so that field is
`nodeClass`; Go's `AllowPartial` is `allowPartialOutcome`. -/
structure Node where
  id : String
  label : String := ""
  shape : String := ""
  maxRetries : Int := 0
  goalGate : Bool := false
  retryTarget : String := ""
  fallbackRetryTarget : String := ""
  nodeClass : String := ""
  llmModel : String := ""
  llmProvider : String := ""
  reasoningEffort : String := ""
  allowPartialOutcome : Bool := false
deriving DecidableEq, Repr

/-- `Edge` of `pkg/pipeline/types.go`.  `from` and `to` are Lean
keywords, so the fields are `fromId` and `toId`. -/
structure Edge where
  fromId : String
  toId : String
  label : String := ""
  condition : String := ""
  weight : Int := 0
  loopRestart : Bool := false
deriving DecidableEq, Repr

/-- `Graph` of `pkg/pipeline/types.go`.  The node map is an association
list keyed by node id. -/
structure Graph where
  name : String := ""
  goal : String := ""
  label : String := ""
  defaultMaxRetry : Int := 0
  retryTarget : String := ""
  fallbackRetryTarget : String := ""
  nodes : List (String × Node) := []
  edges : List Edge := []
deriving DecidableEq, Repr

/-- `graph.Nodes[id]` — association-list lookup. -/
def Graph.lookupNode (g : Graph) (id : String) : Option Node :=
  (g.nodes.find? (fun p => p.1 = id)).map (·.2)

/-- `Graph.OutgoingEdges`: all edges whose `From` is the given node id,
in declaration order. -/
def Graph.outgoingEdges (g : Graph) (nodeID : String) : List Edge :=
  g.edges.filter (fun e => e.fromId = nodeID)

/-! ## Context (`pkg/pipeline/types.go`)

`Context` is a mutex-protected map; the engine uses it single-threaded,
so it is an association list with overwrite-on-set. -/

/-- A context: latest binding for each key. -/
abbrev Ctx := List (String × String)

/-- `Context.Get`. -/
def ctxGet (c : Ctx) (key : String) : Option String :=
  (List.find? (fun p => p.1 = key) c).map (·.2)

/-- `Context.Set` (overwrite or append). -/
def ctxSet (c : Ctx) (key value : String) : Ctx :=
  if (List.any c (fun p => p.1 = key)) then
    List.map (fun p => if p.1 = key then (key, value) else p) c
  else
    c ++ [(key, value)]

/-- `Context.ApplyUpdates`: fold `Set` over the update list. -/
def applyUpdates (c : Ctx) (updates : List (String × String)) : Ctx :=
  updates.foldl (fun acc p => ctxSet acc p.1 p.2) c

/-- `mirrorGraphAttributes` of `engine.go`. -/
def mirrorGraphAttributes (g : Graph) (c : Ctx) : Ctx :=
  let c := ctxSet c "graph.goal" g.goal
  if g.label ≠ "" then ctxSet c "graph.label" g.label else c

/-! ## Condition evaluator (`engine.go`, `evaluateConditionSimple`) -/

/-- `resolveKeySimple` of `engine.go`: `outcome` / `preferred_label` come
from the Outcome, otherwise the context is consulted (for a `context.`
prefix, the qualified key first, then the stripped key). -/
def resolveKeySimple (key : String) (outcome : Option Outcome) (c : Ctx) : String :=
  if key = "outcome" then
    match outcome with
    | none => ""
    | some o => statusString o.status
  else if key = "preferred_label" then
    match outcome with
    | none => ""
    | some o => o.preferredLabel
  else if ("context.".data).isPrefixOf key.data then
    match ctxGet c key with
    | some v => v
    | none =>
      match ctxGet c (String.mk (key.data.drop 8)) with
      | some v => v
      | none => ""
  else
    match ctxGet c key with
    | some v => v
    | none => ""

/-- `evaluateClauseSimple` of `engine.go`.  `strings.Index clause pat` is
rendered through splitting: when the pattern occurs, the text before the
first occurrence is the head of the split and the text after it is the
remaining parts re-joined with the pattern. -/
def evaluateClauseSimple (clause : String) (outcome : Option Outcome) (c : Ctx) : Bool :=
  let cs := clause.data
  let neParts := split2 '!' '=' cs
  if 2 ≤ neParts.length then
    resolveKeySimple (String.mk (trimL (neParts.headD []))) outcome c
      ≠ String.mk (trimL (List.intercalate ['!', '='] neParts.tail))
  else
    let eqParts := split1 '=' cs
    if 2 ≤ eqParts.length then
      resolveKeySimple (String.mk (trimL (eqParts.headD []))) outcome c
        = String.mk (trimL (List.intercalate ['='] eqParts.tail))
    else
      let resolved := resolveKeySimple (strTrim clause) outcome c
      resolved ≠ "" && resolved ≠ "false" && resolved ≠ "0"

/-- `evaluateConditionSimple` of `engine.go`: conjunction over `&&`-split
clauses, empty clauses skipped, empty condition true. -/
def evaluateConditionSimple (condition : String) (outcome : Option Outcome) (c : Ctx) : Bool :=
  let cs := trimL condition.data
  if cs = [] then true
  else
    (split2 '&' '&' cs).all fun clause =>
      let clause := trimL clause
      if clause = [] then true else evaluateClauseSimple (String.mk clause) outcome c

/-! ## Edge selection (`engine.go`, `selectEdge`) -/

/-- The strict comparator of `bestByWeightThenLexical`:
higher weight first, then lexicographically smaller `to`. -/
def edgeBetter (a b : Edge) : Prop :=
  b.weight < a.weight ∨ (a.weight = b.weight ∧ strLt a.toId b.toId = true)

instance (a b : Edge) : Decidable (edgeBetter a b) := by
  unfold edgeBetter; infer_instance

/-- `bestByWeightThenLexical` of `engine.go`.  Go sorts with `sort.Slice`
under the comparator above and returns element 0; only the minimum of the
comparator is used, so we compute it in one pass.  (When two edges tie on
both weight and `to`, `sort.Slice` — an unstable sort — may surface
either; the fold keeps the earliest, which is one of the admissible
results.) -/
def bestByWeightThenLexical : List Edge → Option Edge
  | [] => none
  | e :: es => some (es.foldl (fun best x => if edgeBetter x best then x else best) e)

/-- `normalizeLabel` of `engine.go`: lower-case, trim, strip accelerator
prefixes of the forms `[X] `, `X) `, `X - `. -/
def normalizeLabel (label : String) : String :=
  let l := lowerL (trimL label.data)
  let l' :=
    match l with
    | c0 :: c1 :: c2 :: c3 :: rest =>
      if c0 = '[' then
        let parts := split2 ']' ' ' (c0 :: c1 :: c2 :: c3 :: rest)
        if 2 ≤ parts.length then List.intercalate [']', ' '] parts.tail
        else c0 :: c1 :: c2 :: c3 :: rest
      else if c1 = ')' ∧ c2 = ' ' then c3 :: rest
      else if c1 = ' ' ∧ c2 = '-' ∧ c3 = ' ' then rest
      else c0 :: c1 :: c2 :: c3 :: rest
    | short => short
  String.mk (trimL l')

/-- First edge matching one of the suggested next ids, ids tried in order
(step 3 of `selectEdge`). -/
def findSuggested : List String → List Edge → Option Edge
  | [], _ => none
  | sid :: rest, edges =>
    match edges.find? (fun e => e.toId = sid) with
    | some e => some e
    | none => findSuggested rest edges

/-- Step 1 of `selectEdge`: the outgoing edges whose non-empty condition
evaluates true against the current outcome and context. -/
def conditionMatchedEdges (node : Node) (outcome : Option Outcome) (c : Ctx) (g : Graph) : List Edge :=
  (g.outgoingEdges node.id).filter
    (fun e => e.condition ≠ "" && evaluateConditionSimple e.condition outcome c)

/-- `selectEdge` of `engine.go` — the five-step selection procedure. -/
def selectEdge (node : Node) (outcome : Option Outcome) (c : Ctx) (g : Graph) : Option Edge :=
  let edges := g.outgoingEdges node.id
  if edges = [] then none
  else
    -- Step 1: condition matching
    let conditionMatched := conditionMatchedEdges node outcome c g
    if conditionMatched ≠ [] then bestByWeightThenLexical conditionMatched
    else
      -- Step 2: preferred label
      let step2 :=
        match outcome with
        | some o =>
          if o.preferredLabel ≠ "" then
            edges.find? (fun (e : Edge) => normalizeLabel e.label = normalizeLabel o.preferredLabel)
          else none
        | none => none
      match step2 with
      | some e => some e
      | none =>
        -- Step 3: suggested next ids
        let step3 :=
          match outcome with
          | some o => if o.suggestedNextIDs ≠ [] then findSuggested o.suggestedNextIDs edges else none
          | none => none
        match step3 with
        | some e => some e
        | none =>
          -- Steps 4 and 5: unconditional edges by weight, else any edge
          let unconditional := edges.filter (fun (e : Edge) => e.condition = "")
          if unconditional ≠ [] then bestByWeightThenLexical unconditional
          else bestByWeightThenLexical edges

/-! ## Properties of the edge-selection order -/

theorem listLt_irrefl (s : List Char) : listLt s s = false := by
  induction s with
  | nil => rfl
  | cons c cs ih => simp [listLt, ih]

theorem listLt_trans {a b c : List Char} (hab : listLt a b = true)
    (hbc : listLt b c = true) : listLt a c = true := by
  induction a generalizing b c with
  | nil =>
    cases b with
    | nil => simp [listLt] at hab
    | cons y bs =>
      cases c with
      | nil => simp [listLt] at hbc
      | cons z cs => simp [listLt]
  | cons x as ih =>
    cases b with
    | nil => simp [listLt] at hab
    | cons y bs =>
      cases c with
      | nil => simp [listLt] at hbc
      | cons z cs =>
        simp only [listLt] at hab hbc ⊢
        by_cases hxy : x = y
        · subst hxy
          rw [if_pos rfl] at hab
          by_cases hyz : x = z
          · subst hyz
            rw [if_pos rfl] at hbc ⊢
            exact ih hab hbc
          · rw [if_neg hyz] at hbc ⊢
            exact hbc
        · rw [if_neg hxy] at hab
          by_cases hyz : y = z
          · subst hyz
            rw [if_neg hxy]
            exact hab
          · rw [if_neg hyz] at hbc
            by_cases hxz : x = z
            · subst hxz
              exfalso
              simp only [charLt, decide_eq_true_eq] at hab hbc
              omega
            · rw [if_neg hxz]
              simp only [charLt, decide_eq_true_eq] at hab hbc ⊢
              omega

theorem listLt_asymm {a b : List Char} (h : listLt a b = true) : listLt b a = false := by
  by_contra hc
  have hba : listLt b a = true := by
    cases hx : listLt b a
    · exact absurd hx hc
    · rfl
  have := listLt_trans h hba
  rw [listLt_irrefl] at this
  exact Bool.false_ne_true this

theorem listLt_conn {a b : List Char} (hab : listLt a b = false)
    (hba : listLt b a = false) : a = b := by
  induction a generalizing b with
  | nil =>
    cases b with
    | nil => rfl
    | cons y bs => simp [listLt] at hab
  | cons x as ih =>
    cases b with
    | nil => simp [listLt] at hba
    | cons y bs =>
      simp only [listLt] at hab hba
      by_cases hxy : x = y
      · subst hxy
        rw [if_pos rfl] at hab hba
        rw [ih hab hba]
      · rw [if_neg hxy] at hab
        rw [if_neg (fun h => hxy h.symm)] at hba
        exfalso
        simp only [charLt, decide_eq_false_iff_not, not_lt] at hab hba
        apply hxy
        have hn : x.toNat = y.toNat := le_antisymm hba hab
        have := congrArg Char.ofNat hn
        rwa [Char.ofNat_toNat, Char.ofNat_toNat] at this

theorem listLt_false_trans {a b c : List Char} (hab : listLt a b = false)
    (hbc : listLt b c = false) : listLt a c = false := by
  cases hx : listLt a c
  · rfl
  · exfalso
    cases hy : listLt b a
    · have hEq := listLt_conn hab hy
      subst hEq
      rw [hx] at hbc
      exact absurd hbc (by decide)
    · have h2 := listLt_trans hy hx
      rw [hbc] at h2
      exact absurd h2 (by decide)

/-- `b` is at least as preferable as `a` under the edge-selection order:
no lower weight, and on equal weight no lexicographically larger `to`. -/
def edgeLE (a b : Edge) : Prop :=
  a.weight ≤ b.weight ∧ (a.weight = b.weight → strLe b.toId a.toId = true)

theorem edgeLE_refl (a : Edge) : edgeLE a a := by
  refine ⟨le_refl _, fun _ => ?_⟩
  simp [strLe, strLt, listLt_irrefl]

theorem edgeLE_trans {a b c : Edge} (h1 : edgeLE a b) (h2 : edgeLE b c) : edgeLE a c := by
  obtain ⟨hw1, ht1⟩ := h1
  obtain ⟨hw2, ht2⟩ := h2
  refine ⟨le_trans hw1 hw2, fun heq => ?_⟩
  have hab : a.weight = b.weight := le_antisymm hw1 (heq ▸ hw2)
  have hbc : b.weight = c.weight := hab ▸ heq
  have g1 := ht1 hab
  have g2 := ht2 hbc
  simp only [strLe, strLt, Bool.not_eq_true', Bool.not_eq_false] at g1 g2 ⊢
  exact listLt_false_trans g1 g2

theorem edgeLE_of_better {a b : Edge} (h : edgeBetter a b) : edgeLE b a := by
  rcases h with hw | ⟨hw, ht⟩
  · exact ⟨le_of_lt hw, fun heq => absurd (heq ▸ hw) (lt_irrefl _)⟩
  · refine ⟨le_of_eq hw.symm, fun _ => ?_⟩
    simp only [strLe, strLt, Bool.not_eq_true', Bool.not_eq_false]
    exact listLt_asymm ht

theorem edgeLE_of_not_better {a b : Edge} (h : ¬ edgeBetter a b) : edgeLE a b := by
  unfold edgeBetter at h
  push_neg at h
  refine ⟨h.1, fun heq => ?_⟩
  have h2 := h.2 heq
  simp only [strLt] at h2
  simp only [strLe, strLt, Bool.not_eq_true', Bool.not_eq_false]
  cases hx : listLt a.toId.data b.toId.data
  · rfl
  · exact absurd hx h2

/-- The fold inside `bestByWeightThenLexical`. -/
def pickBest (e : Edge) (es : List Edge) : Edge :=
  es.foldl (fun best x => if edgeBetter x best then x else best) e

theorem pickBest_cons (e x : Edge) (es : List Edge) :
    pickBest e (x :: es) = pickBest (if edgeBetter x e then x else e) es := rfl

theorem pickBest_mem (e : Edge) (es : List Edge) : pickBest e es ∈ e :: es := by
  induction es generalizing e with
  | nil => exact List.mem_singleton.mpr rfl
  | cons x es ih =>
    rw [pickBest_cons]
    by_cases hb : edgeBetter x e
    · rw [if_pos hb]
      rcases List.mem_cons.mp (ih x) with h | h
      · rw [h]
        exact List.mem_cons_of_mem _ (List.mem_cons_self _ _)
      · exact List.mem_cons_of_mem _ (List.mem_cons_of_mem _ h)
    · rw [if_neg hb]
      rcases List.mem_cons.mp (ih e) with h | h
      · rw [h]
        exact List.mem_cons_self _ _
      · exact List.mem_cons_of_mem _ (List.mem_cons_of_mem _ h)

theorem pickBest_best (e : Edge) (es : List Edge) :
    ∀ f ∈ e :: es, edgeLE f (pickBest e es) := by
  induction es generalizing e with
  | nil =>
    intro f hf
    have hfe : f = e := by simpa using hf
    subst hfe
    exact edgeLE_refl _
  | cons x es ih =>
    intro f hf
    rw [pickBest_cons]
    by_cases hb : edgeBetter x e
    · rw [if_pos hb]
      have hacc : edgeLE x (pickBest x es) := ih x x (List.mem_cons_self _ _)
      rcases List.mem_cons.mp hf with rfl | hf'
      · exact edgeLE_trans (edgeLE_of_better hb) hacc
      · rcases List.mem_cons.mp hf' with rfl | hf''
        · exact hacc
        · exact ih x f (List.mem_cons_of_mem _ hf'')
    · rw [if_neg hb]
      have hacc : edgeLE e (pickBest e es) := ih e e (List.mem_cons_self _ _)
      rcases List.mem_cons.mp hf with rfl | hf'
      · exact hacc
      · rcases List.mem_cons.mp hf' with rfl | hf''
        · exact edgeLE_trans (edgeLE_of_not_better hb) hacc
        · exact ih e f (List.mem_cons_of_mem _ hf'')

theorem bestByWeightThenLexical_spec (edges : List Edge) (hne : edges ≠ []) :
    ∃ e, bestByWeightThenLexical edges = some e ∧ e ∈ edges ∧ ∀ f ∈ edges, edgeLE f e := by
  cases edges with
  | nil => exact absurd rfl hne
  | cons x es =>
    exact ⟨pickBest x es, rfl, pickBest_mem x es, pickBest_best x es⟩

/-- C1.  Edge selection, condition pass: whenever at least one outgoing
edge has a non-empty condition evaluating true against the current
Outcome and Context, `selectEdge` returns an edge drawn from exactly that
set, with maximal weight among it, ties broken towards the
lexicographically smaller `to`; in particular no unconditional or
false-condition edge — whatever its weight — is chosen. -/
theorem edge_selection_condition_pass (node : Node) (outcome : Option Outcome) (c : Ctx) (g : Graph)
    (hne : conditionMatchedEdges node outcome c g ≠ []) :
    ∃ e, selectEdge node outcome c g = some e ∧
      e ∈ conditionMatchedEdges node outcome c g ∧
      ∀ f ∈ conditionMatchedEdges node outcome c g,
        f.weight ≤ e.weight ∧ (f.weight = e.weight → strLe e.toId f.toId = true) := by
  have hedges : g.outgoingEdges node.id ≠ [] := by
    intro h
    apply hne
    unfold conditionMatchedEdges
    rw [h]
    rfl
  obtain ⟨e, he, hmem, hbest⟩ := bestByWeightThenLexical_spec _ hne
  refine ⟨e, ?_, hmem, fun f hf => hbest f hf⟩
  unfold selectEdge
  rw [if_neg hedges, if_pos hne]
  exact he

/-- Concrete node for the condition-pass witness. -/
def wNode : Node := { id := "n" }

/-- Concrete graph for the condition-pass witness: a heavy unconditional
edge, a false-condition edge, and two equal-weight true-condition edges
whose tie is broken by `to`. -/
def wGraph : Graph :=
  { nodes := [("n", wNode)]
    edges :=
      [ { fromId := "n", toId := "z", weight := 100 }
      , { fromId := "n", toId := "b", condition := "outcome=success", weight := 5 }
      , { fromId := "n", toId := "a", condition := "outcome=success", weight := 5 }
      , { fromId := "n", toId := "x", condition := "outcome=fail", weight := 7 } ] }

/-- Witness for C1 at a concrete input. -/
theorem edge_selection_condition_pass_witness :
    conditionMatchedEdges wNode (some { status := .success }) [] wGraph ≠ [] ∧
    ∃ e, selectEdge wNode (some { status := .success }) [] wGraph = some e ∧
      e ∈ conditionMatchedEdges wNode (some { status := .success }) [] wGraph ∧
      ∀ f ∈ conditionMatchedEdges wNode (some { status := .success }) [] wGraph,
        f.weight ≤ e.weight ∧ (f.weight = e.weight → strLe e.toId f.toId = true) :=
  ⟨by decide, edge_selection_condition_pass wNode (some { status := .success }) [] wGraph (by decide)⟩

/-! ## Retry policy and `executeWithRetry` (`engine.go`) -/

/-- `RetryPolicy` of `engine.go` (durations in milliseconds, as `ℚ`). -/
structure RetryPolicy where
  maxAttempts : Int
  initialDelayMs : ℚ
  backoffFactor : ℚ
  maxDelayMs : ℚ
  jitter : Bool
deriving DecidableEq

/-- `buildRetryPolicy` of `engine.go`: node `max_retries`, falling back
to the graph `default_max_retry` when it is zero, plus one; fixed backoff
constants. -/
def buildRetryPolicy (node : Node) (g : Graph) : RetryPolicy :=
  let maxRetries := if node.maxRetries = 0 then g.defaultMaxRetry else node.maxRetries
  { maxAttempts := maxRetries + 1
    initialDelayMs := 200
    backoffFactor := 2
    maxDelayMs := 60000
    jitter := true }

/-- A handler invocation result: Go `(outcome, err)` with exactly one of
the two set. -/
abbrev HandlerResult := Except String Outcome

/-- The attempt loop of `executeWithRetry`, by recursion on the number of
remaining attempts; `attempt` is the 1-indexed Go loop counter.  The
result also counts the handler invocations made.  Sleeping between
attempts is dropped. -/
def execAttempts (handler : Nat → HandlerResult) (allowPartialOutcome : Bool) :
    Nat → Nat → Outcome × Nat
  | _, 0 =>
    -- the fall-through after the Go loop
    ({ status := .fail, failureReason := "max retries exceeded" }, 0)
  | attempt, remaining + 1 =>
    match handler attempt with
    | .error e =>
      if remaining ≠ 0 then
        let r := execAttempts handler allowPartialOutcome (attempt + 1) remaining
        (r.1, r.2 + 1)
      else ({ status := .fail, failureReason := e }, 1)
    | .ok o =>
      if o.status = .success ∨ o.status = .partialSuccess then (o, 1)
      else if o.status = .retry then
        if remaining ≠ 0 then
          let r := execAttempts handler allowPartialOutcome (attempt + 1) remaining
          (r.1, r.2 + 1)
        else if allowPartialOutcome then
          ({ status := .partialSuccess, notes := "retries exhausted, partial accepted" }, 1)
        else ({ status := .fail, failureReason := "max retries exceeded" }, 1)
      else if o.status = .fail then (o, 1)
      else
        let r := execAttempts handler allowPartialOutcome (attempt + 1) remaining
        (r.1, r.2 + 1)

/-- `executeWithRetry` of `engine.go`.  The handler resolver always
resolving is folded into the handler oracle (a resolver returning nil
yields an immediate fail outcome, which the oracle can express). -/
def executeWithRetry (handler : Nat → HandlerResult) (node : Node)
    (policy : RetryPolicy) : Outcome × Nat :=
  let maxAttempts := if policy.maxAttempts < 1 then 1 else policy.maxAttempts
  execAttempts handler node.allowPartialOutcome 1 maxAttempts.toNat

/-- The effective attempt budget of a policy. -/
def effectiveBudget (policy : RetryPolicy) : Nat :=
  (if policy.maxAttempts < 1 then 1 else policy.maxAttempts).toNat

theorem execAttempts_le (handler : Nat → HandlerResult) (ap : Bool) :
    ∀ attempt remaining, (execAttempts handler ap attempt remaining).2 ≤ remaining := by
  intro attempt remaining
  induction remaining generalizing attempt with
  | zero => simp [execAttempts]
  | succ r ih =>
    unfold execAttempts
    cases handler attempt with
    | error e =>
      by_cases hr : r ≠ 0
      · simpa [hr] using Nat.succ_le_succ (ih (attempt + 1))
      · have hz : r = 0 := by
          by_contra hc
          exact hr hc
        subst hz
        simp
    | ok o =>
      by_cases h1 : o.status = .success ∨ o.status = .partialSuccess
      · simp [h1]
      · by_cases h2 : o.status = .retry
        · by_cases hr : r ≠ 0
          · simpa [h1, h2, hr] using Nat.succ_le_succ (ih (attempt + 1))
          · have hz : r = 0 := by
              by_contra hc
              exact hr hc
            subst hz
            by_cases hap : ap <;> simp [h1, h2, hap]
        · by_cases h3 : o.status = .fail
          · simp [h1, h2, h3]
          · simpa [h1, h2, h3] using Nat.succ_le_succ (ih (attempt + 1))

theorem execAttempts_all_retry (handler : Nat → HandlerResult) (ap : Bool) (o : Outcome)
    (ho : o.status = .retry) (hh : ∀ k, handler k = .ok o) :
    ∀ attempt remaining, 1 ≤ remaining →
      execAttempts handler ap attempt remaining =
        ((if ap then { status := .partialSuccess, notes := "retries exhausted, partial accepted" }
          else { status := .fail, failureReason := "max retries exceeded" }), remaining) := by
  intro attempt remaining h1
  induction remaining generalizing attempt with
  | zero => omega
  | succ r ih =>
    unfold execAttempts
    rw [hh attempt]
    simp only
    have hns : ¬ (o.status = .success ∨ o.status = .partialSuccess) := by
      rw [ho]; simp
    rw [if_neg hns, if_pos ho]
    by_cases hr : r = 0
    · subst hr
      by_cases hap : ap <;> simp [hap]
    · have h2 : 1 ≤ r := by omega
      have hrne : (r ≠ 0) := hr
      rw [if_pos hrne, ih (attempt + 1) h2]

theorem execAttempts_fail_first (handler : Nat → HandlerResult) (ap : Bool) (o : Outcome)
    (ho : o.status = .fail) (hh : handler 1 = .ok o) :
    ∀ remaining, 1 ≤ remaining → execAttempts handler ap 1 remaining = (o, 1) := by
  intro remaining h1
  cases remaining with
  | zero => omega
  | succ r =>
    unfold execAttempts
    rw [hh]
    simp [ho]

theorem effectiveBudget_pos (policy : RetryPolicy) : 1 ≤ effectiveBudget policy := by
  unfold effectiveBudget
  split
  · simp
  · rename_i h
    omega

/-- C2.  Retry budget: the effective budget is
`(node.max_retries | graph.default_max_retry) + 1`; the invocation count
never exceeds it; a handler that answers `retry` on every attempt is
re-invoked exactly up to the budget and then a `partial_success` is
synthesized when `allow_partial` is set and a `fail` otherwise; an
outcome with status `fail` is accepted at once with no further
attempts. -/
theorem retry_budget (node : Node) (g : Graph) :
    ((buildRetryPolicy node g).maxAttempts
       = (if node.maxRetries = 0 then g.defaultMaxRetry else node.maxRetries) + 1) ∧
    (∀ handler, (executeWithRetry handler node (buildRetryPolicy node g)).2
       ≤ effectiveBudget (buildRetryPolicy node g)) ∧
    (∀ handler (o : Outcome), o.status = .retry → (∀ k, handler k = .ok o) →
      executeWithRetry handler node (buildRetryPolicy node g) =
        ((if node.allowPartialOutcome then
            { status := .partialSuccess, notes := "retries exhausted, partial accepted" }
          else { status := .fail, failureReason := "max retries exceeded" }),
         effectiveBudget (buildRetryPolicy node g))) ∧
    (∀ handler (o : Outcome), o.status = .fail → handler 1 = .ok o →
      executeWithRetry handler node (buildRetryPolicy node g) = (o, 1)) := by
  refine ⟨rfl, ?_, ?_, ?_⟩
  · intro handler
    exact execAttempts_le handler node.allowPartialOutcome 1 _
  · intro handler o ho hh
    exact execAttempts_all_retry handler node.allowPartialOutcome o ho hh 1 _
      (effectiveBudget_pos _)
  · intro handler o ho hh
    exact execAttempts_fail_first handler node.allowPartialOutcome o ho hh _
      (effectiveBudget_pos _)

/-- Concrete node for the retry-budget witness: `max_retries = 2`, no
partial acceptance. -/
def wRetryNode : Node := { id := "r", maxRetries := 2 }

/-- Witness for C2 at a concrete input: budget `2 + 1 = 3`; three `retry`
answers synthesize a fail after exactly three invocations; an immediate
`fail` outcome is accepted with one invocation. -/
theorem retry_budget_witness :
    (buildRetryPolicy wRetryNode {}).maxAttempts = 3 ∧
    executeWithRetry (fun _ => .ok { status := .retry }) wRetryNode (buildRetryPolicy wRetryNode {}) =
      ({ status := .fail, failureReason := "max retries exceeded" }, 3) ∧
    executeWithRetry (fun _ => .ok { status := .fail, failureReason := "boom" }) wRetryNode
        (buildRetryPolicy wRetryNode {}) =
      ({ status := .fail, failureReason := "boom" }, 1) := by
  have h := retry_budget wRetryNode {}
  refine ⟨by rw [h.1]; decide, ?_, ?_⟩
  · have h2 := h.2.2.1 (fun _ => .ok { status := .retry }) { status := .retry } rfl (fun _ => rfl)
    rw [h2]
    decide
  · exact h.2.2.2 (fun _ => .ok { status := .fail, failureReason := "boom" })
      { status := .fail, failureReason := "boom" } rfl rfl

/-! ## The run loop (`engine.go`, `Run`) -/

/-- `RunResult` of `engine.go`. -/
structure RunResult where
  status : StageStatus
  completedNodes : List String
  nodeOutcomes : List (String × Outcome)
  finalOutcome : Option Outcome := none
deriving DecidableEq, Repr

/-- The mutable state of the `Run` loop: current node id, completion
order, most recent outcome per node (overwrite on re-execution), the
context, a global handler-invocation counter and the stage index. -/
structure RunState where
  current : String
  completed : List String := []
  outcomes : List (String × Outcome) := []
  ctx : Ctx := []
  calls : Nat := 0
  stageIndex : Nat := 0
deriving DecidableEq, Repr

/-- Record the most recent outcome of a node (`nodeOutcomes[node.ID] = outcome`). -/
def upsertOutcome (outcomes : List (String × Outcome)) (id : String) (o : Outcome) :
    List (String × Outcome) :=
  if outcomes.any (fun p => p.1 = id) then
    outcomes.map (fun p => if p.1 = id then (id, o) else p)
  else
    outcomes ++ [(id, o)]

/-- `isTerminal` of `engine.go`. -/
def isTerminal (node : Node) : Bool := node.shape = "Msquare"

/-- `checkGoalGates` of `engine.go`: the first recorded goal-gate node
whose most recent outcome is neither success nor partial_success (Go
iterates a map; the embedding iterates in recording order). -/
def checkGoalGates (g : Graph) (outcomes : List (String × Outcome)) : Option Node :=
  outcomes.findSome? fun p =>
    match g.lookupNode p.1 with
    | some node =>
      if node.goalGate ∧ p.2.status ≠ .success ∧ p.2.status ≠ .partialSuccess then
        some node
      else none
    | none => none

/-- `getRetryTarget` of `engine.go`: first non-empty of node
`retry_target`, node `fallback_retry_target`, graph `retry_target`,
graph `fallback_retry_target`. -/
def getRetryTarget (node : Node) (g : Graph) : String :=
  if node.retryTarget ≠ "" then node.retryTarget
  else if node.fallbackRetryTarget ≠ "" then node.fallbackRetryTarget
  else if g.retryTarget ≠ "" then g.retryTarget
  else if g.fallbackRetryTarget ≠ "" then g.fallbackRetryTarget
  else ""

/-- The final status computed after the loop exits: fail when any
recorded outcome failed, success otherwise. -/
def finalStatus (outcomes : List (String × Outcome)) : StageStatus :=
  if outcomes.any (fun p => p.2.status = .fail) then .fail else .success

/-- `findStartNode` of `engine.go`: an `Mdiamond` node, else a node with
id `start` or `Start` (Go iterates the node map; the embedding takes the
first in declaration order). -/
def findStartNode (g : Graph) : Option Node :=
  match (g.nodes.find? (fun p => p.2.shape = "Mdiamond")).map (·.2) with
  | some n => some n
  | none => (g.nodes.find? (fun p => p.2.id = "start" ∨ p.2.id = "Start")).map (·.2)

/-- One handler oracle for a whole run: node id × global invocation
counter → Go `(outcome, err)`. -/
abbrev RunHandler := String → Nat → HandlerResult

/-- The `Run` loop of `engine.go`, by recursion on fuel.  Event emission,
`auto_status` files and checkpoint persistence are dropped; handler
execution goes through `executeWithRetry` against the oracle. -/
def runLoop (g : Graph) (h : RunHandler) : Nat → RunState → Except String RunResult
  | 0, _ => .error "out of fuel"
  | fuel + 1, st =>
    match g.lookupNode st.current with
    | none => .error "node not found in graph"
    | some node =>
      if isTerminal node then
        match checkGoalGates g st.outcomes with
        | some failedGate =>
          let retryTarget := getRetryTarget failedGate g
          if retryTarget ≠ "" ∧ (g.lookupNode retryTarget).isSome then
            runLoop g h fuel { st with current := retryTarget }
          else
            .ok { status := .fail, completedNodes := st.completed,
                  nodeOutcomes := st.outcomes }
        | none =>
          .ok { status := finalStatus st.outcomes, completedNodes := st.completed,
                nodeOutcomes := st.outcomes }
      else
        let policy := buildRetryPolicy node g
        let r := executeWithRetry (fun k => h node.id (st.calls + k)) node policy
        let outcome := r.1
        let completed := st.completed ++ [node.id]
        let outcomes := upsertOutcome st.outcomes node.id outcome
        let c1 := applyUpdates st.ctx outcome.contextUpdates
        let c2 := ctxSet c1 "outcome" (statusString outcome.status)
        let c3 := if outcome.preferredLabel ≠ "" then
            ctxSet c2 "preferred_label" outcome.preferredLabel
          else c2
        match selectEdge node (some outcome) c3 g with
        | none =>
          if outcome.status = .fail then
            .ok { status := .fail, completedNodes := completed,
                  nodeOutcomes := outcomes, finalOutcome := some outcome }
          else
            .ok { status := finalStatus outcomes, completedNodes := completed,
                  nodeOutcomes := outcomes }
        | some edge =>
          if edge.loopRestart then
            runLoop g h fuel
              { st with
                current := edge.toId
                completed := completed
                outcomes := outcomes
                ctx := c3
                calls := st.calls + r.2 }
          else
            runLoop g h fuel
              { st with
                current := edge.toId
                completed := completed
                outcomes := outcomes
                ctx := c3
                calls := st.calls + r.2
                stageIndex := st.stageIndex + 1 }

/-- `Engine.Run` of `engine.go`: resolve the start node, mirror graph
attributes into the context, iterate. -/
def runGo (g : Graph) (h : RunHandler) (fuel : Nat) : Except String RunResult :=
  match findStartNode g with
  | none => .error "no start node found"
  | some startNode =>
    runLoop g h fuel { current := startNode.id, ctx := mirrorGraphAttributes g [] }

instance {e a : Type} [DecidableEq e] [DecidableEq a] : DecidableEq (Except e a) := fun x y =>
  match x, y with
  | .error u, .error v =>
    if h : u = v then .isTrue (by rw [h]) else .isFalse (by simp [h])
  | .error _, .ok _ => .isFalse (by simp)
  | .ok _, .error _ => .isFalse (by simp)
  | .ok u, .ok v =>
    if h : u = v then .isTrue (by rw [h]) else .isFalse (by simp [h])

/-- C3 (amended).  Goal-gate invariant at a terminal node: when some
recorded goal gate is unsatisfied, the run does not complete there —
if the first configured retry target (node `retry_target`, node
`fallback_retry_target`, graph `retry_target`, graph
`fallback_retry_target`) names a declared node, the engine jumps to it;
otherwise (the first configured target is absent or undeclared) the run
returns status fail. -/
theorem goal_gate_terminal (g : Graph) (h : RunHandler) (fuel : Nat) (st : RunState)
    (node failedGate : Node)
    (hcur : g.lookupNode st.current = some node)
    (hterm : isTerminal node = true)
    (hgate : checkGoalGates g st.outcomes = some failedGate) :
    (getRetryTarget failedGate g ≠ "" ∧ (g.lookupNode (getRetryTarget failedGate g)).isSome →
      runLoop g h (fuel + 1) st =
        runLoop g h fuel { st with current := getRetryTarget failedGate g }) ∧
    (¬ (getRetryTarget failedGate g ≠ "" ∧ (g.lookupNode (getRetryTarget failedGate g)).isSome) →
      runLoop g h (fuel + 1) st =
        .ok { status := .fail, completedNodes := st.completed, nodeOutcomes := st.outcomes }) := by
  constructor
  · intro hc
    conv_lhs => rw [runLoop]
    rw [hcur]
    simp only [hterm, if_true, hgate]
    rw [if_pos hc]
  · intro hc
    conv_lhs => rw [runLoop]
    rw [hcur]
    simp only [hterm, if_true, hgate]
    rw [if_neg hc]

/-- Unsatisfied goal gate whose own retry target is undeclared. -/
def cGate : Node := { id := "g1", goalGate := true, retryTarget := "ghost" }

/-- Graph for the C3 counterexample: the gate's node-level target
`ghost` is not declared, while the graph-level target `real` is. -/
def cGraph : Graph :=
  { retryTarget := "real"
    nodes := [("g1", cGate), ("real", { id := "real" }), ("exit", { id := "exit", shape := "Msquare" })] }

/-- Run state sitting at the terminal node with the gate failed. -/
def cState : RunState := { current := "exit", outcomes := [("g1", { status := .fail })] }

/-- Counterexample to C3 as stated: a retry target further down the
configured order (`graph.retry_target = "real"`) resolves to a declared
node, yet the engine neither jumps to it nor to the first configured
target (`ghost`, undeclared) — the run returns status fail at once. -/
theorem goal_gate_first_target_counterexample :
    checkGoalGates cGraph cState.outcomes = some cGate ∧
    getRetryTarget cGate cGraph = "ghost" ∧
    (cGraph.lookupNode "ghost").isNone = true ∧
    cGraph.retryTarget = "real" ∧
    (cGraph.lookupNode "real").isSome = true ∧
    runLoop cGraph (fun _ _ => .ok { status := .success }) 5 cState =
      .ok { status := .fail, completedNodes := [], nodeOutcomes := [("g1", { status := .fail })] } := by
  decide

/-- Witness for C3 (amended): with a declared node-level target the
engine jumps there; with no configured target at all the run fails. -/
def cGoodGraph : Graph :=
  { nodes := [("g2", { id := "g2", goalGate := true, retryTarget := "fix" }), ("fix", { id := "fix" }),
              ("exit", { id := "exit", shape := "Msquare" })] }

/-- Witness for the amended C3 at concrete inputs. -/
theorem goal_gate_terminal_witness :
    (runLoop cGoodGraph (fun _ _ => .ok { status := .success }) 6
        { current := "exit", outcomes := [("g2", { status := .fail })] } =
      runLoop cGoodGraph (fun _ _ => .ok { status := .success }) 5
        { current := "fix", outcomes := [("g2", { status := .fail })] }) ∧
    (runLoop cGraph (fun _ _ => .ok { status := .success }) 5 cState =
      .ok { status := .fail, completedNodes := [], nodeOutcomes := [("g1", { status := .fail })] }) := by
  constructor
  · exact (goal_gate_terminal cGoodGraph (fun _ _ => .ok { status := .success }) 5
      { current := "exit", outcomes := [("g2", { status := .fail })] }
      { id := "exit", shape := "Msquare" }
      { id := "g2", goalGate := true, retryTarget := "fix" }
      (by decide) (by decide) (by decide)).1 (by decide)
  · exact (goal_gate_terminal cGraph (fun _ _ => .ok { status := .success }) 4 cState
      { id := "exit", shape := "Msquare" } cGate
      (by decide) (by decide) (by decide)).2 (by decide)

/-- Linear three-node pipeline `start(Mdiamond) → A → B → exit(Msquare)`. -/
def linGraph : Graph :=
  { nodes := [("start", { id := "start", shape := "Mdiamond" }),
              ("A", { id := "A", shape := "box" }),
              ("B", { id := "B", shape := "box" }),
              ("exit", { id := "exit", shape := "Msquare" })]
    edges := [ { fromId := "start", toId := "A" }
             , { fromId := "A", toId := "B" }
             , { fromId := "B", toId := "exit" } ] }

/-- A handler that always returns success. -/
def alwaysSuccess : RunHandler := fun _ _ => .ok { status := .success }

/-- C4 (amended).  Terminal exit status: reaching a terminal node with
every recorded goal gate satisfied exits the loop, and the returned
status is success exactly when no recorded node outcome failed (the
engine downgrades to fail otherwise); in particular the linear pipeline
`start → A → B → exit` under an always-success handler returns success
with `completed_nodes = [start, A, B]`. -/
theorem terminal_exit_status (g : Graph) (h : RunHandler) (fuel : Nat) (st : RunState)
    (node : Node)
    (hcur : g.lookupNode st.current = some node)
    (hterm : isTerminal node = true)
    (hgate : checkGoalGates g st.outcomes = none) :
    (runLoop g h (fuel + 1) st =
      .ok { status := finalStatus st.outcomes, completedNodes := st.completed,
            nodeOutcomes := st.outcomes }) ∧
    (finalStatus st.outcomes = .success ↔ ∀ p ∈ st.outcomes, p.2.status ≠ .fail) ∧
    runGo linGraph alwaysSuccess 10 =
      .ok { status := .success, completedNodes := ["start", "A", "B"],
            nodeOutcomes := [("start", { status := .success }), ("A", { status := .success }),
                             ("B", { status := .success })] } := by
  refine ⟨?_, ?_, by decide⟩
  · conv_lhs => rw [runLoop]
    rw [hcur]
    simp only [hterm, if_true, hgate]
  · unfold finalStatus
    by_cases hany : st.outcomes.any (fun p => p.2.status = .fail)
    · rw [if_pos hany]
      simp only [List.any_eq_true, decide_eq_true_eq] at hany
      obtain ⟨p, hp, hfail⟩ := hany
      constructor
      · intro hc
        exact absurd hc (by decide)
      · intro hall
        exact absurd hfail (hall p hp)
    · rw [if_neg hany]
      simp only [List.any_eq_true, decide_eq_true_eq, not_exists, not_and] at hany
      exact ⟨fun _ p hp => by
        push_neg at hany
        exact hany p hp, fun _ => rfl⟩

/-- Graph for the C4 counterexample: `A` fails but still has an
unconditional edge to the terminal node. -/
def xGraph : Graph :=
  { nodes := [("start", { id := "start", shape := "Mdiamond" }),
              ("A", { id := "A", shape := "box" }),
              ("exit", { id := "exit", shape := "Msquare" })]
    edges := [ { fromId := "start", toId := "A" }
             , { fromId := "A", toId := "exit" } ] }

/-- Handler for the C4 counterexample: `A` fails, everything else
succeeds. -/
def xHandler : RunHandler := fun id _ =>
  if id = "A" then .ok { status := .fail, failureReason := "boom" } else .ok { status := .success }

/-- Counterexample to C4 as stated: the run reaches the terminal node
with all goal gates (there are none) satisfied, yet returns status fail,
because a recorded outcome (`A`) failed on the way. -/
theorem terminal_exit_status_counterexample :
    checkGoalGates xGraph
        [("start", { status := .success }), ("A", { status := .fail, failureReason := "boom" })]
      = none ∧
    runGo xGraph xHandler 10 =
      .ok { status := .fail, completedNodes := ["start", "A"],
            nodeOutcomes := [("start", { status := .success }),
                             ("A", { status := .fail, failureReason := "boom" })] } := by
  decide

/-- Witness for the amended C4 at a concrete input. -/
theorem terminal_exit_status_witness :
    runLoop linGraph alwaysSuccess 3 { current := "exit" } =
      .ok { status := .success, completedNodes := [], nodeOutcomes := [] } ∧
    runGo linGraph alwaysSuccess 10 =
      .ok { status := .success, completedNodes := ["start", "A", "B"],
            nodeOutcomes := [("start", { status := .success }), ("A", { status := .success }),
                             ("B", { status := .success })] } := by
  have h := terminal_exit_status linGraph alwaysSuccess 2 { current := "exit" }
    { id := "exit", shape := "Msquare" } (by decide) (by decide) (by decide)
  exact ⟨h.1, h.2.2⟩

/-! ## Loop detector (`pkg/agent/types.go`, `loopDetector.recordAndCheck`) -/

/-- `loopDetector.recordAndCheck`: append the `name:args` signature, then
— once at least `window` signatures are recorded — fire when the last
`window` entries repeat a block of length 1, 2 or 3 that divides the
window.  (The Go block loop starting at index `patternLen` with
early-exit equality checks is the quantified block equality below; block
0 is trivially equal to itself.) -/
def recordAndCheck (window : Nat) (history : List String) (name args : String) :
    List String × Bool :=
  let key := name ++ ":" ++ args
  let h := history ++ [key]
  if h.length < window then (h, false)
  else
    let recent := h.drop (h.length - window)
    let fires := [1, 2, 3].any fun patternLen =>
      if window % patternLen ≠ 0 then false
      else
        let pattern := recent.take patternLen
        (List.range (window / patternLen)).all fun i =>
          (recent.drop (i * patternLen)).take patternLen = pattern
    (h, fires)

/-- The specification-side repetition predicate: the `window`-long list
`recent` is a repetition of its length-`p` prefix for some
`p ∈ {1, 2, 3}` dividing the window. -/
def repeatsWithPeriod (window : Nat) (recent : List String) : Prop :=
  ∃ p, (p = 1 ∨ p = 2 ∨ p = 3) ∧ window % p = 0 ∧
    ∀ i < window / p, (recent.drop (i * p)).take p = recent.take p

/-- C8.  Loop detector: with fewer than `window` recorded signatures the
detector never fires; once the window is full it fires exactly when the
last `window` signatures repeat with some period `p ∈ {1,2,3}` dividing
the window; with window 4, `A B A B` fires and `A B C D` does not. -/
theorem loop_detector_window (window : Nat) (history : List String) (name args : String) :
    ((recordAndCheck window history name args).1 = history ++ [name ++ ":" ++ args]) ∧
    (history.length + 1 < window → (recordAndCheck window history name args).2 = false) ∧
    (window ≤ history.length + 1 →
      ((recordAndCheck window history name args).2 = true ↔
        repeatsWithPeriod window
          ((history ++ [name ++ ":" ++ args]).drop (history.length + 1 - window)))) ∧
    (recordAndCheck 4 ["A:", "B:", "A:"] "B" "").2 = true ∧
    (recordAndCheck 4 ["A:", "B:", "C:"] "D" "").2 = false := by
  refine ⟨?_, ?_, ?_, by decide, by decide⟩
  · dsimp only [recordAndCheck]
    split <;> rfl
  · intro hlt
    dsimp only [recordAndCheck]
    rw [if_pos (by simpa using hlt)]
  · intro hge
    dsimp only [recordAndCheck]
    rw [if_neg (by simp only [List.length_append, List.length_cons, List.length_nil, not_lt]; omega)]
    simp only [List.length_append, List.length_cons, List.length_nil]
    unfold repeatsWithPeriod
    rw [List.any_eq_true]
    constructor
    · rintro ⟨p, hp, hfire⟩
      have hpmem : p = 1 ∨ p = 2 ∨ p = 3 := by simpa using hp
      by_cases hmod : window % p ≠ 0
      · rw [if_pos hmod] at hfire
        exact absurd hfire (by decide)
      · rw [if_neg hmod] at hfire
        push_neg at hmod
        refine ⟨p, hpmem, hmod, fun i hi => ?_⟩
        rw [List.all_eq_true] at hfire
        have := hfire i (by simpa using List.mem_range.mpr hi)
        simpa using this
    · rintro ⟨p, hpmem, hmod, hall⟩
      refine ⟨p, ?_, ?_⟩
      · rcases hpmem with rfl | rfl | rfl
        · decide
        · decide
        · decide
      · rw [if_neg (by simpa using hmod)]
        rw [List.all_eq_true]
        intro i hi
        have := hall i (List.mem_range.mp (by simpa using hi))
        simpa using this

/-- Witness for C8 at concrete inputs: recording appends the signature;
below the window the detector stays silent; at a full window the firing
condition is the period predicate. -/
theorem loop_detector_window_witness :
    (recordAndCheck 4 ["A:", "B:", "A:"] "B" "").1 = ["A:", "B:", "A:"] ++ ["B" ++ ":" ++ ""] ∧
    (recordAndCheck 4 ["A:"] "B" "").2 = false ∧
    ((recordAndCheck 4 ["A:", "B:", "A:"] "B" "").2 = true ↔
      repeatsWithPeriod 4
        ((["A:", "B:", "A:"] ++ ["B" ++ ":" ++ ""]).drop
          ((["A:", "B:", "A:"] : List String).length + 1 - 4))) := by
  refine ⟨(loop_detector_window 4 ["A:", "B:", "A:"] "B" "").1,
          (loop_detector_window 4 ["A:"] "B" "").2.1 (by decide), ?_⟩
  exact (loop_detector_window 4 ["A:", "B:", "A:"] "B" "").2.2.1 (by decide)

/-! ## Tool-output truncation (`pkg/agent/types.go`) -/

/-- Association-list lookup for the limit maps. -/
def lookupNat (l : List (String × Nat)) (k : String) : Option Nat :=
  (l.find? (fun p => p.1 = k)).map (·.2)

/-- `defaultToolOutputLimits` of `pkg/agent/types.go`. -/
def defaultToolOutputLimits : List (String × Nat) :=
  [("read_file", 50000), ("bash", 30000), ("grep", 20000), ("glob", 10000)]

/-- `Session.getToolOutputLimit`: caller override, then per-tool default,
then 50000. -/
def getToolOutputLimit (overrides : List (String × Nat)) (toolName : String) : Nat :=
  match lookupNat overrides toolName with
  | some limit => limit
  | none =>
    match lookupNat defaultToolOutputLimits toolName with
    | some limit => limit
    | none => 50000

/-- The constant part of the truncation warning named by the spec. -/
def warningText : List Char := "[WARNING: Tool output was truncated. ".data

/-- The text after the removed-character count in the marker. -/
def markerTailText : List Char :=
  " characters removed from the middle. The full output is available in the event stream. If you need to see specific parts, re-run with more targeted parameters.]\n\n".data

/-- The visible truncation marker of `truncateToolOutput`, with the
number of removed characters spliced in. -/
def truncationMarker (removed : Nat) : List Char :=
  "\n\n[WARNING: Tool output was truncated. ".data ++ (Nat.repr removed).data ++ markerTailText

/-- `truncateToolOutput` of `pkg/agent/types.go`: head of `3·limit/4`
characters, a marker, and a tail sized to leave 150 bytes for the marker
(the Go `if tailSize < 0 { tailSize = 0 }` clamp is `Nat` subtraction). -/
def truncateToolOutput (content : List Char) (limit : Nat) : List Char :=
  if content.length ≤ limit then content
  else
    let headSize := limit * 3 / 4
    let tailSize := limit - headSize - 150
    let head := content.take headSize
    let truncated := content.length - headSize - tailSize
    let marker := truncationMarker truncated
    if 0 < tailSize then head ++ marker ++ content.drop (content.length - tailSize)
    else head ++ marker

/-- `defaultLineLimits` of `pkg/agent/types.go`. -/
def defaultLineLimits : List (String × Nat) :=
  [("bash", 256), ("grep", 200), ("glob", 500)]

/-- `truncateLines` of `pkg/agent/types.go` (stage 2). -/
def truncateLines (content : List Char) (maxLines : Nat) : List Char :=
  let lines := split1 '\n' content
  if lines.length ≤ maxLines then content
  else
    let headCount := maxLines / 2
    let tailCount := maxLines - headCount
    let omitted := lines.length - headCount - tailCount
    let head := List.intercalate ['\n'] (lines.take headCount)
    let tail := List.intercalate ['\n'] (lines.drop (lines.length - tailCount))
    head ++ ("\n[... ".data ++ (Nat.repr omitted).data ++ " lines omitted ...]\n".data) ++ tail

/-- `Session.applyTruncation`: stage 1 (characters) then stage 2
(lines). -/
def applyTruncation (overrides : List (String × Nat)) (toolName : String)
    (output : List Char) : List Char :=
  let charLimit := getToolOutputLimit overrides toolName
  let result := truncateToolOutput output charLimit
  match lookupNat defaultLineLimits toolName with
  | some lineLimit => truncateLines result lineLimit
  | none => result

theorem truncationMarker_decomp (n : Nat) :
    truncationMarker n =
      "\n\n".data ++ warningText ++ ((Nat.repr n).data ++ markerTailText) := by
  unfold truncationMarker
  have h : "\n\n[WARNING: Tool output was truncated. ".data = "\n\n".data ++ warningText := by
    decide
  rw [h]
  simp only [List.append_assoc]

theorem marker_isInfix (head tail : List Char) (n : Nat) :
    warningText <:+: head ++ truncationMarker n ++ tail :=
  ⟨head ++ "\n\n".data, (Nat.repr n).data ++ markerTailText ++ tail, by
    rw [truncationMarker_decomp]
    simp only [List.append_assoc]⟩

/-- C7.  Stage-1 character truncation: the per-tool cap is the caller
override, else the tool default (read_file 50000, bash 30000, grep
20000, glob 10000), else 50000; an output within the cap is unchanged;
an output over the cap becomes a head of `3·cap/4` characters, the
marker naming the removed count, and a tail of `cap − 3·cap/4 − 150`
characters, and always contains the warning marker substring. -/
theorem tool_output_truncation (overrides : List (String × Nat)) (tool : String)
    (content : List Char) :
    (getToolOutputLimit [] "read_file" = 50000 ∧ getToolOutputLimit [] "bash" = 30000 ∧
     getToolOutputLimit [] "grep" = 20000 ∧ getToolOutputLimit [] "glob" = 10000 ∧
     getToolOutputLimit [] "status" = 50000) ∧
    (∀ n, lookupNat overrides tool = some n → getToolOutputLimit overrides tool = n) ∧
    (content.length ≤ getToolOutputLimit overrides tool →
      truncateToolOutput content (getToolOutputLimit overrides tool) = content) ∧
    (getToolOutputLimit overrides tool < content.length →
      truncateToolOutput content (getToolOutputLimit overrides tool) =
        content.take (getToolOutputLimit overrides tool * 3 / 4) ++
          truncationMarker
            (content.length - getToolOutputLimit overrides tool * 3 / 4 -
              (getToolOutputLimit overrides tool - getToolOutputLimit overrides tool * 3 / 4 - 150)) ++
          content.drop (content.length -
            (getToolOutputLimit overrides tool - getToolOutputLimit overrides tool * 3 / 4 - 150)) ∧
      warningText <:+:
        truncateToolOutput content (getToolOutputLimit overrides tool)) := by
  refine ⟨by decide, ?_, ?_, ?_⟩
  · intro n hn
    unfold getToolOutputLimit
    rw [hn]
  · intro hle
    unfold truncateToolOutput
    rw [if_pos hle]
  · intro hgt
    have hnle : ¬ content.length ≤ getToolOutputLimit overrides tool := by omega
    constructor
    · unfold truncateToolOutput
      rw [if_neg hnle]
      dsimp only
      split
      · rfl
      · rename_i htail
        have hz : getToolOutputLimit overrides tool -
            getToolOutputLimit overrides tool * 3 / 4 - 150 = 0 := by omega
        rw [hz]
        simp
    · unfold truncateToolOutput
      rw [if_neg hnle]
      dsimp only
      split
      · exact marker_isInfix _ _ _
      · simpa using marker_isInfix (content.take (getToolOutputLimit overrides tool * 3 / 4)) [] _

/-- Witness for C7 at concrete inputs: a caller override of 20 for
`bash`; a 10-character output passes unchanged, a 30-character output is
truncated and carries the warning marker. -/
theorem tool_output_truncation_witness :
    (List.replicate 10 'x').length ≤ getToolOutputLimit [("bash", 20)] "bash" ∧
    truncateToolOutput (List.replicate 10 'x') (getToolOutputLimit [("bash", 20)] "bash") =
      List.replicate 10 'x' ∧
    getToolOutputLimit [("bash", 20)] "bash" < (List.replicate 30 'x').length ∧
    warningText <:+:
      truncateToolOutput (List.replicate 30 'x') (getToolOutputLimit [("bash", 20)] "bash") :=
  ⟨by decide,
   (tool_output_truncation [("bash", 20)] "bash" (List.replicate 10 'x')).2.2.1 (by decide),
   by decide,
   ((tool_output_truncation [("bash", 20)] "bash" (List.replicate 30 'x')).2.2.2 (by decide)).2⟩

/-! ## Agent session: `Submit`, `runLoop`, follow-up queue
(`pkg/agent/types.go`) -/

/-- `SessionState` of `pkg/agent/types.go`. -/
inductive SessionState where
  | idle
  | processing
  | awaitingInput
  | closed
deriving DecidableEq, Repr

/-- The Go constants' literal values. -/
def stateString : SessionState → String
  | .idle => "idle"
  | .processing => "processing"
  | .awaitingInput => "awaiting_input"
  | .closed => "closed"

/-- `llm.ToolCall` as the session sees it (arguments as raw text). -/
structure ToolCallA where
  id : String := ""
  name : String
  arguments : String := ""
deriving DecidableEq, Repr

/-- A history turn (`UserTurn` / `SteeringTurn` / `AssistantTurn` /
`ToolResultsTurn`); tool results are `(tool_call_id, content)` pairs. -/
inductive Turn where
  | user (content : String)
  | steering (content : String)
  | assistant (content : String) (toolCalls : List ToolCallA)
  | toolResults (results : List (String × String))
deriving DecidableEq, Repr

/-- An LLM completion as the loop consumes it. -/
structure LLMResp where
  content : String := ""
  toolCalls : List ToolCallA := []
deriving DecidableEq, Repr

/-- The `SessionConfig` fields the loop reads. -/
structure SessionConfig where
  maxToolRounds : Nat := 0
  maxTurns : Nat := 0
  enableLoopDetection : Bool := false
  loopWindow : Nat := 0
deriving DecidableEq, Repr

/-- The mutable session state: Go `Session`'s `State`, `History`,
`SteeringQueue`, `FollowupQueue`, `turnCount`, the loop-detector history,
and a counter indexing LLM calls for the oracle. -/
structure SessionSt where
  state : SessionState
  history : List Turn := []
  steeringQueue : List String := []
  followupQueue : List String := []
  turnCount : Nat := 0
  llmCalls : Nat := 0
  ldHistory : List String := []
deriving DecidableEq, Repr

/-- The steering text injected when the loop detector fires. -/
def loopSteerMsg : String :=
  "You appear to be in a loop calling the same tool repeatedly. Please try a different approach."

/-- The iteration of `Session.runLoop` up to (not including) the
follow-up processing at its exit: steering dequeue, LLM call, assistant
turn, turn/tool-round limits, tool execution, loop detection.  The LLM is
an oracle on the call counter; tool execution is an oracle from the call
to the recorded result content (output truncation is studied
separately). -/
def loopIter (cfg : SessionConfig) (llm : Nat → Except String LLMResp)
    (execT : ToolCallA → String) : Nat → SessionSt → SessionSt × Except String Unit
  | 0, s => (s, .ok ())
  | rounds + 1, s =>
    let s :=
      match s.steeringQueue with
      | msg :: rest =>
        { s with steeringQueue := rest, history := s.history ++ [Turn.steering msg] }
      | [] => s
    match llm s.llmCalls with
    | .error e => ({ s with llmCalls := s.llmCalls + 1 }, .error ("LLM call failed: " ++ e))
    | .ok resp =>
      let s := { s with
                 llmCalls := s.llmCalls + 1
                 history := s.history ++ [Turn.assistant resp.content resp.toolCalls]
                 turnCount := s.turnCount + 1 }
      if cfg.maxTurns ≠ 0 ∧ cfg.maxTurns ≤ s.turnCount then (s, .ok ())
      else if resp.toolCalls = [] then (s, .ok ())
      else
        let results := resp.toolCalls.map (fun tc => (tc.id, execT tc))
        let s := { s with history := s.history ++ [Turn.toolResults results] }
        let s :=
          if cfg.enableLoopDetection then
            resp.toolCalls.foldl
              (fun acc tc =>
                let r := recordAndCheck cfg.loopWindow acc.ldHistory tc.name tc.arguments
                let acc := { acc with ldHistory := r.1 }
                if r.2 then { acc with steeringQueue := acc.steeringQueue ++ [loopSteerMsg] }
                else acc)
              s
          else s
        loopIter cfg llm execT rounds s

/-- Submit's deferred state reset: processing becomes idle. -/
def deferIdle (s : SessionSt) : SessionSt :=
  if s.state = .processing then { s with state := .idle } else s

/-- `Session.Submit` of `pkg/agent/types.go`, with `Session.runLoop`'s
follow-up tail inlined: guard on the state, mark processing, append the
user turn, run the loop, then — when the loop exits normally — drain one
follow-up message and restart `Submit` with it; the deferred reset runs
when `Submit` returns. -/
def submit (cfg : SessionConfig) (llm : Nat → Except String LLMResp)
    (execT : ToolCallA → String) : Nat → SessionSt → String → SessionSt × Except String Unit
  | 0, s, _ => (s, .error "out of fuel")
  | fuel + 1, s, input =>
    if s.state ≠ .idle ∧ s.state ≠ .awaitingInput then
      (s, .error ("session is not idle (state: " ++ stateString s.state ++ ")"))
    else
      let s := { s with state := .processing, history := s.history ++ [Turn.user input] }
      let maxRounds := if cfg.maxToolRounds = 0 then 200 else cfg.maxToolRounds
      let r1 := loopIter cfg llm execT maxRounds s
      match r1.2 with
      | .error e => (deferIdle r1.1, .error e)
      | .ok _ =>
        match r1.1.followupQueue with
        | [] => (deferIdle r1.1, .ok ())
        | msg :: rest =>
          let r2 := submit cfg llm execT fuel { r1.1 with followupQueue := rest } msg
          (deferIdle r2.1, r2.2)

/-- Session start state for the C5 run: idle, one queued follow-up. -/
def c5Start : SessionSt := { state := .idle, followupQueue := ["next"] }

/-- LLM oracle for the C5 run: a plain completion without tool calls. -/
def c5Llm : Nat → Except String LLMResp := fun _ => .ok { content := "done" }

/-- C5.  Follow-up semantics at the failing input: the loop exits
normally with `"next"` queued; the session drains the message and calls
`Submit` with it, but the re-entrant `Submit` finds the state still
`processing` (the outer deferred reset has not run yet) and rejects it —
the whole `Submit` returns the error `session is not idle (state:
processing)`, no `UserTurn` for `"next"` is appended, and the follow-up
is lost. -/
theorem followup_restart_rejected :
    submit {} c5Llm (fun _ => "") 3 c5Start "hi" =
      ({ state := .idle
         history := [Turn.user "hi", Turn.assistant "done" []]
         followupQueue := []
         turnCount := 1
         llmCalls := 1 },
       .error "session is not idle (state: processing)") ∧
    Turn.user "next" ∉ (submit {} c5Llm (fun _ => "") 3 c5Start "hi").1.history := by
  constructor
  · decide
  · decide

/-! ## Model stylesheet (`stylesheet` package, `Stylesheet.Apply`) -/

/-- `SelectorType` of the stylesheet package. -/
inductive SelectorType where
  | universal
  | shapeSel
  | classSel
  | idSel
deriving DecidableEq, Repr

/-- `Rule` of the stylesheet package (properties as parsed, in source
order; specificity 0/1/2/3 for `*` / shape / `.class` / `#id`). -/
structure Rule where
  selector : String
  selectorType : SelectorType
  properties : List (String × String) := []
  specificity : Nat
deriving DecidableEq, Repr

/-- `Stylesheet.matches`: universal always, shape on `node.Shape`, class
on the comma-split trimmed `node.Class` list, id on `node.ID`. -/
def ruleMatches (rule : Rule) (node : Node) : Bool :=
  match rule.selectorType with
  | .universal => true
  | .shapeSel => node.shape = rule.selector
  | .classSel => (split1 ',' node.nodeClass.data).any
      (fun c => String.mk (trimL c) = rule.selector)
  | .idSel => node.id = rule.selector

/-- One step of the `sortBySpecificity` insertion sort: the element
bubbles left past strictly larger specificities, so it lands after every
element with specificity less than or equal to its own. -/
def insertBySpec (x : Rule) : List Rule → List Rule
  | [] => [x]
  | y :: ys => if x.specificity < y.specificity then x :: y :: ys else y :: insertBySpec x ys

/-- `sortBySpecificity`: the stable insertion sort of the stylesheet
package, ascending specificity. -/
def sortBySpecificity (rules : List Rule) : List Rule :=
  rules.foldl (fun acc x => insertBySpec x acc) []

/-- `applyProperty`: `llm_model` (alias `model`), `llm_provider`,
`reasoning_effort`. -/
def applyProperty (node : Node) (prop val : String) : Node :=
  if prop = "llm_model" ∨ prop = "model" then { node with llmModel := val }
  else if prop = "llm_provider" then { node with llmProvider := val }
  else if prop = "reasoning_effort" then { node with reasoningEffort := val }
  else node

/-- Apply every declaration of one rule. -/
def applyRule (node : Node) (rule : Rule) : Node :=
  rule.properties.foldl (fun n p => applyProperty n p.1 p.2) node

/-- `Stylesheet.Apply` for a single node: snapshot the explicit
llm_model/llm_provider/reasoning_effort, clear them, apply the matching
rules in ascending specificity, restore the snapshot. -/
def applyToNode (rules : List Rule) (node : Node) : Node :=
  let explicitModel := node.llmModel
  let explicitProvider := node.llmProvider
  let explicitEffort := node.reasoningEffort
  let cleared := { node with llmModel := "", llmProvider := "", reasoningEffort := "" }
  let matched := rules.filter (fun r => ruleMatches r cleared)
  let sorted := sortBySpecificity matched
  let styled := sorted.foldl applyRule cleared
  let styled := if explicitModel ≠ "" then { styled with llmModel := explicitModel } else styled
  let styled := if explicitProvider ≠ "" then { styled with llmProvider := explicitProvider } else styled
  if explicitEffort ≠ "" then { styled with reasoningEffort := explicitEffort } else styled

/-- `Stylesheet.Apply` over the whole graph. -/
def stylesheetApply (rules : List Rule) (g : Graph) : Graph :=
  { g with nodes := g.nodes.map (fun p => (p.1, applyToNode rules p.2)) }

/-- Ascending specificity. -/
def specLE (a b : Rule) : Prop := a.specificity ≤ b.specificity

theorem insertBySpec_perm (x : Rule) (l : List Rule) : (insertBySpec x l).Perm (x :: l) := by
  induction l with
  | nil => rfl
  | cons y ys ih =>
    unfold insertBySpec
    split
    · rfl
    · exact ((ih.cons y).trans (List.Perm.swap x y ys))

theorem insertBySpec_sorted {x : Rule} {l : List Rule} (h : l.Sorted specLE) :
    (insertBySpec x l).Sorted specLE := by
  induction l with
  | nil => simp [insertBySpec, List.Sorted]
  | cons y ys ih =>
    rw [List.sorted_cons] at h
    unfold insertBySpec
    split
    · rename_i hlt
      rw [List.sorted_cons]
      refine ⟨?_, List.sorted_cons.mpr h⟩
      intro z hz
      rcases List.mem_cons.mp hz with rfl | hz'
      · exact le_of_lt hlt
      · exact le_trans (le_of_lt hlt) (h.1 z hz')
    · rename_i hge
      rw [List.sorted_cons]
      refine ⟨?_, ih h.2⟩
      intro z hz
      have hz' := (insertBySpec_perm x ys).mem_iff.mp hz
      rcases List.mem_cons.mp hz' with rfl | hz''
      · exact not_lt.mp hge
      · exact h.1 z hz''

theorem sortBySpecificity_foldl_sorted (rs acc : List Rule) (h : acc.Sorted specLE) :
    (rs.foldl (fun a x => insertBySpec x a) acc).Sorted specLE := by
  induction rs generalizing acc with
  | nil => exact h
  | cons x rs ih => exact ih _ (insertBySpec_sorted h)

theorem sortBySpecificity_foldl_perm (rs acc : List Rule) :
    (rs.foldl (fun a x => insertBySpec x a) acc).Perm (acc ++ rs) := by
  induction rs generalizing acc with
  | nil => simp
  | cons x rs ih =>
    have h1 := ih (insertBySpec x acc)
    have h2 : (insertBySpec x acc ++ rs).Perm ((x :: acc) ++ rs) :=
      (insertBySpec_perm x acc).append_right rs
    have h3 : ((x :: acc) ++ rs).Perm (acc ++ x :: rs) := List.perm_middle.symm
    exact (h1.trans h2).trans h3

/-- C9.  Stylesheet application invariant: for every node, `Apply`
snapshots the explicit llm_model/llm_provider/reasoning_effort, clears
them, applies the matching rules in ascending specificity order (the
sort is a sorted permutation of the matched rules) and restores the
snapshot — so a value explicitly set on the node is never changed by any
stylesheet rule. -/
theorem stylesheet_explicit_wins (rules : List Rule) (node : Node) :
    (node.llmModel ≠ "" → (applyToNode rules node).llmModel = node.llmModel) ∧
    (node.llmProvider ≠ "" → (applyToNode rules node).llmProvider = node.llmProvider) ∧
    (node.reasoningEffort ≠ "" → (applyToNode rules node).reasoningEffort = node.reasoningEffort) ∧
    (sortBySpecificity rules).Sorted specLE ∧
    (sortBySpecificity rules).Perm rules := by
  refine ⟨?_, ?_, ?_,
    sortBySpecificity_foldl_sorted rules [] (by simp [List.Sorted]),
    by simpa using sortBySpecificity_foldl_perm rules []⟩
  · intro h
    unfold applyToNode
    dsimp only
    rw [if_pos h]
    split <;> split <;> rfl
  · intro h
    unfold applyToNode
    dsimp only
    rw [if_pos h]
    split
    · split <;> rfl
    · split <;> rfl
  · intro h
    unfold applyToNode
    dsimp only
    rw [if_pos h]

/-- Node with an explicitly set model for the C9 witness. -/
def wStyleNode : Node := { id := "s", shape := "box", llmModel := "explicit-model" }

/-- A universal rule that would overwrite the model. -/
def wRules : List Rule :=
  [{ selector := "*", selectorType := .universal,
     properties := [("llm_model", "css-model")], specificity := 0 }]

/-- Witness for C9 at a concrete input: the explicit model survives a
matching universal rule. -/
theorem stylesheet_explicit_wins_witness :
    wStyleNode.llmModel ≠ "" ∧
    (applyToNode wRules wStyleNode).llmModel = wStyleNode.llmModel :=
  ⟨by decide, (stylesheet_explicit_wins wRules wStyleNode).1 (by decide)⟩

/-! ## LLM retry helper (`RetryConfig.DelayForAttempt` / `Retry`)

Go `float64` arithmetic and `time.Duration` are modelled as exact `ℚ`
(milliseconds); `rand.Float64()` is the oracle `j ∈ [0,1)`. -/

/-- `RetryConfig` of the llm package. -/
structure RetryConfig where
  maxAttempts : Nat
  initialDelay : ℚ
  backoffFactor : ℚ
  maxDelay : ℚ
  jitter : Bool

/-- `LLMError` as `Retry` consumes it: retryability and the optional
`Retry-After` duration (0 when absent). -/
structure LLMError where
  retryable : Bool := false
  retryAfter : ℚ := 0

/-- `DefaultShouldRetry`. -/
def defaultShouldRetry (e : LLMError) : Bool := e.retryable

/-- `RetryConfig.DelayForAttempt` (1-indexed `attempt`): exponential
backoff, clamped to `maxDelay`, then — after the clamp — multiplied by
the jitter factor `0.5 + j`. -/
def delayForAttempt (rc : RetryConfig) (attempt : Nat) (j : ℚ) : ℚ :=
  let d := rc.initialDelay * rc.backoffFactor ^ (attempt - 1)
  let d := if d > rc.maxDelay then rc.maxDelay else d
  if rc.jitter then d * (1/2 + j) else d

/-- The delay `Retry` actually sleeps before the next attempt: the
computed delay, overridden by a positive `Retry-After` that does not
exceed `maxDelay`. -/
def retryDelay (rc : RetryConfig) (attempt : Nat) (j : ℚ) (e : LLMError) : ℚ :=
  let delay := delayForAttempt rc attempt j
  if 0 < e.retryAfter ∧ e.retryAfter ≤ rc.maxDelay then e.retryAfter else delay

/-- The loop of `Retry`, recursing on the remaining attempts and
collecting the slept delays; `.error none` is Go's `nil, nil` fall
through when `maxAttempts < 1`. -/
def retryLoop (rc : RetryConfig) (shouldRetry : LLMError → Bool)
    (fn : Nat → Except LLMError String) (j : Nat → ℚ) :
    Nat → Nat → Option LLMError → Except (Option LLMError) String × List ℚ
  | _, 0, lastErr => (.error lastErr, [])
  | attempt, remaining + 1, _ =>
    match fn attempt with
    | .ok resp => (.ok resp, [])
    | .error err =>
      if shouldRetry err = false ∨ remaining = 0 then (.error (some err), [])
      else
        let d := retryDelay rc attempt (j attempt) err
        let r := retryLoop rc shouldRetry fn j (attempt + 1) remaining (some err)
        (r.1, d :: r.2)

/-- `Retry` of the llm package. -/
def retryGo (rc : RetryConfig) (shouldRetry : LLMError → Bool)
    (fn : Nat → Except LLMError String) (j : Nat → ℚ) :
    Except (Option LLMError) String × List ℚ :=
  retryLoop rc shouldRetry fn j 1 rc.maxAttempts none

theorem retryLoop_cont (rc : RetryConfig) (sr : LLMError → Bool)
    (fn : Nat → Except LLMError String) (j : Nat → ℚ) (attempt remaining : Nat)
    (lastErr : Option LLMError) (e : LLMError)
    (hfn : fn attempt = .error e) (hsr : sr e = true) (hrem : remaining ≠ 0) :
    retryLoop rc sr fn j attempt (remaining + 1) lastErr =
      ((retryLoop rc sr fn j (attempt + 1) remaining (some e)).1,
        retryDelay rc attempt (j attempt) e ::
          (retryLoop rc sr fn j (attempt + 1) remaining (some e)).2) := by
  conv_lhs => rw [retryLoop]
  rw [hfn]
  dsimp only
  rw [if_neg (by simp [hsr, hrem])]

/-- C6 (amended).  Retry backoff: with jitter off the delay at attempt
`k` is `initial · factor^(k−1)` clamped to `maxDelay`, hence at most
`maxDelay`; with jitter on the clamped value is multiplied by
`0.5 + j ∈ [0.5, 1.5)` after clamping, so the slept delay is bounded by
`1.5 · maxDelay` (not `maxDelay`); a positive `retry_after ≤ maxDelay`
on the error overrides the computed delay, and is the first delay
`Retry` sleeps when the first attempt fails retryably. -/
theorem retry_backoff (rc : RetryConfig) (k : Nat) (j : ℚ)
    (hj0 : 0 ≤ j) (hj1 : j < 1) (hmax : 0 ≤ rc.maxDelay) :
    (rc.jitter = false →
      delayForAttempt rc k j = min (rc.initialDelay * rc.backoffFactor ^ (k - 1)) rc.maxDelay) ∧
    (rc.jitter = false → delayForAttempt rc k j ≤ rc.maxDelay) ∧
    delayForAttempt rc k j ≤ 3 / 2 * rc.maxDelay ∧
    (∀ e : LLMError, 0 < e.retryAfter → e.retryAfter ≤ rc.maxDelay →
      retryDelay rc k j e = e.retryAfter) ∧
    (∀ (e : LLMError) (fn : Nat → Except LLMError String) (jf : Nat → ℚ),
      fn 1 = .error e → e.retryable = true → 2 ≤ rc.maxAttempts →
      0 < e.retryAfter → e.retryAfter ≤ rc.maxDelay →
      ∃ rest, (retryGo rc defaultShouldRetry fn jf).2 = e.retryAfter :: rest) := by
  have hclamp : ∀ d : ℚ, (if d > rc.maxDelay then rc.maxDelay else d) ≤ rc.maxDelay := by
    intro d
    split
    · exact le_refl _
    · rename_i hd
      exact not_lt.mp hd
  refine ⟨?_, ?_, ?_, ?_, ?_⟩
  · intro hnj
    unfold delayForAttempt
    rw [hnj]
    simp only [Bool.false_eq_true, if_false]
    split
    · rename_i hd
      rw [min_eq_right (le_of_lt hd)]
    · rename_i hd
      rw [min_eq_left (not_lt.mp hd)]
  · intro hnj
    unfold delayForAttempt
    rw [hnj]
    simp only [Bool.false_eq_true, if_false]
    exact hclamp _
  · unfold delayForAttempt
    dsimp only
    cases hjit : rc.jitter
    · simp only [if_false, Bool.false_eq_true]
      have := hclamp (rc.initialDelay * rc.backoffFactor ^ (k - 1))
      nlinarith
    · simp only [if_true]
      have hcl := hclamp (rc.initialDelay * rc.backoffFactor ^ (k - 1))
      set d := if rc.initialDelay * rc.backoffFactor ^ (k - 1) > rc.maxDelay then rc.maxDelay
        else rc.initialDelay * rc.backoffFactor ^ (k - 1) with hd
      rcases le_or_lt 0 d with hdp | hdn
      · nlinarith
      · nlinarith
  · intro e h1 h2
    unfold retryDelay
    rw [if_pos ⟨h1, h2⟩]
  · intro e fn jf hfn hret hma hra1 hra2
    obtain ⟨r, hr⟩ : ∃ r, rc.maxAttempts = r + 2 := ⟨rc.maxAttempts - 2, by omega⟩
    unfold retryGo
    rw [hr, retryLoop_cont rc defaultShouldRetry fn jf 1 (r + 1) none e hfn
      (by simp [defaultShouldRetry, hret]) (by omega)]
    refine ⟨(retryLoop rc defaultShouldRetry fn jf 2 (r + 1) (some e)).2, ?_⟩
    dsimp only
    congr 1
    unfold retryDelay
    rw [if_pos ⟨hra1, hra2⟩]

/-- A config at the delay cap with jitter on. -/
def capConfig : RetryConfig :=
  { maxAttempts := 3, initialDelay := 60000, backoffFactor := 2, maxDelay := 60000, jitter := true }

/-- Counterexample to C6 as stated: with jitter on (jitter value
`0.5 + 0.9 = 1.4`, inside `[0.5, 1.5)`), the delay at attempt 1 is
`60000 · 1.4 = 84000 > maxDelay = 60000` — the jitter multiplies after
the clamp, so `delay(k) ≤ max_delay` fails. -/
theorem retry_backoff_counterexample :
    delayForAttempt capConfig 1 (9 / 10) = 84000 ∧
    capConfig.maxDelay = 60000 ∧
    ¬ delayForAttempt capConfig 1 (9 / 10) ≤ capConfig.maxDelay := by
  refine ⟨?_, rfl, ?_⟩
  · unfold delayForAttempt capConfig
    norm_num
  · unfold delayForAttempt capConfig
    norm_num

/-- `LinearRetryConfig` of the llm package. -/
def linearRetryConfig : RetryConfig :=
  { maxAttempts := 3, initialDelay := 500, backoffFactor := 1, maxDelay := 60000, jitter := false }

/-- Witness for the amended C6 at concrete inputs. -/
theorem retry_backoff_witness :
    delayForAttempt linearRetryConfig 2 0 =
      min (linearRetryConfig.initialDelay * linearRetryConfig.backoffFactor ^ (2 - 1))
        linearRetryConfig.maxDelay ∧
    delayForAttempt linearRetryConfig 2 0 ≤ linearRetryConfig.maxDelay ∧
    retryDelay linearRetryConfig 1 0 { retryable := true, retryAfter := 30000 } = 30000 := by
  have h := retry_backoff linearRetryConfig 2 0 (le_refl 0) (by norm_num)
    (by norm_num [linearRetryConfig])
  refine ⟨h.1 rfl, h.2.1 rfl, ?_⟩
  exact (retry_backoff linearRetryConfig 1 0 (le_refl 0) (by norm_num)
      (by norm_num [linearRetryConfig])).2.2.2.1
    { retryable := true, retryAfter := 30000 } (by norm_num)
    (by norm_num [linearRetryConfig])

/-! ## Gemini `StreamAccumulator` (`pkg/llm/provider/gemini/gemini.go`) -/

/-- `ToolCall` as the accumulator stores it (`Arguments` raw bytes as a
string). -/
structure ToolCallG where
  id : String := ""
  name : String := ""
  arguments : String := ""
deriving DecidableEq, Repr

/-- `Usage`. -/
structure UsageG where
  inputTokens : Nat := 0
  outputTokens : Nat := 0
  totalTokens : Nat := 0
  reasoningTokens : Nat := 0
  cachedTokens : Nat := 0
  cacheReadTokens : Nat := 0
  cacheWriteTokens : Nat := 0
deriving DecidableEq, Repr

/-- `StreamEventType`. -/
inductive StreamEventType where
  | start
  | delta
  | toolCallStart
  | toolCallDelta
  | toolCallEnd
  | reasoningDelta
  | eventEnd
  | eventError
deriving DecidableEq, Repr

/-- `StreamEvent` (the fields `Process` reads). -/
structure StreamEvent where
  type : StreamEventType
  delta : String := ""
  toolCall : Option ToolCallG := none
  finishReason : String := ""
  usage : Option UsageG := none
deriving DecidableEq, Repr

/-- `StreamAccumulator`. -/
structure StreamAccumulator where
  content : String := ""
  reasoning : String := ""
  toolCalls : List ToolCallG := []
  finishReason : String := ""
  usage : Option UsageG := none
  model : String := ""
  id : String := ""
deriving DecidableEq, Repr

/-- `Response` as `StreamAccumulator.Response` builds it (`CreatedAt`
dropped; the usage is the accumulated one or the zero value). -/
structure ResponseG where
  id : String := ""
  model : String := ""
  content : String := ""
  reasoning : String := ""
  toolCalls : List ToolCallG := []
  finishReason : String := ""
  usage : UsageG := {}
deriving DecidableEq, Repr

/-- `StreamAccumulator.Process`: a total step function — a
`tool_call_start` with a nil `ToolCall` and a `tool_call_delta` with no
open tool call or an empty delta are silently ignored; unknown event
types fall through. -/
def saProcess (a : StreamAccumulator) (event : StreamEvent) : StreamAccumulator :=
  match event.type with
  | .delta => { a with content := a.content ++ event.delta }
  | .reasoningDelta => { a with reasoning := a.reasoning ++ event.delta }
  | .toolCallStart =>
    match event.toolCall with
    | some tc => { a with toolCalls := a.toolCalls ++ [tc] }
    | none => a
  | .toolCallDelta =>
    match a.toolCalls.getLast? with
    | some last =>
      if event.delta ≠ "" then
        { a with toolCalls := a.toolCalls.dropLast ++
            [{ last with arguments := last.arguments ++ event.delta }] }
      else a
    | none => a
  | .eventEnd =>
    let a' := { a with finishReason := event.finishReason }
    match event.usage with
    | some u => { a' with usage := some u }
    | none => a'
  | _ => a

/-- `StreamAccumulator.Response`. -/
def saResponse (a : StreamAccumulator) : ResponseG :=
  { id := a.id, model := a.model, content := a.content, reasoning := a.reasoning,
    toolCalls := a.toolCalls, finishReason := a.finishReason,
    usage := match a.usage with | some u => u | none => {} }

/-- C10.  `StreamAccumulator.Process` is total on every event sequence
(it is a plain function in the embedding, so processing any, also
malformed, sequence is defined): a `tool_call_delta` arriving with no
recorded tool call, or with an empty delta, leaves the accumulator
unchanged; a `tool_call_start` carrying a nil `ToolCall` leaves it
unchanged; and `Response` of any processed sequence is the well-defined
record read off the accumulator, with the zero usage when none was
reported. -/
theorem stream_accumulator_total (a : StreamAccumulator) (e : StreamEvent)
    (events : List StreamEvent) :
    (e.type = .toolCallDelta → a.toolCalls = [] → saProcess a e = a) ∧
    (e.type = .toolCallDelta → e.delta = "" → saProcess a e = a) ∧
    (e.type = .toolCallStart → e.toolCall = none → saProcess a e = a) ∧
    (saResponse (events.foldl saProcess a)).content = (events.foldl saProcess a).content ∧
    (saResponse (events.foldl saProcess a)).toolCalls = (events.foldl saProcess a).toolCalls ∧
    ((events.foldl saProcess a).usage = none →
      (saResponse (events.foldl saProcess a)).usage = {}) := by
  refine ⟨?_, ?_, ?_, rfl, rfl, ?_⟩
  · intro h1 h2
    unfold saProcess
    rw [h1, h2]
    rfl
  · intro h1 h2
    unfold saProcess
    rw [h1]
    dsimp only
    cases (a.toolCalls).getLast? with
    | none => rfl
    | some last => simp [h2]
  · intro h1 h2
    unfold saProcess
    rw [h1, h2]
  · intro h
    unfold saResponse
    rw [h]

/-- A `tool_call_delta` with no preceding `tool_call_start`. -/
def strayDelta : StreamEvent := { type := .toolCallDelta, delta := "x" }

/-- A `tool_call_start` carrying a nil `ToolCall`. -/
def nilStart : StreamEvent := { type := .toolCallStart }

/-- Witness for C10 at concrete inputs: the malformed events are dropped
and the final `Response` is well defined. -/
theorem stream_accumulator_total_witness :
    saProcess {} strayDelta = {} ∧
    saProcess {} nilStart = {} ∧
    (saResponse ([strayDelta, nilStart,
        { type := .delta, delta := "hi" }].foldl saProcess {})).content = "hi" := by
  refine ⟨(stream_accumulator_total {} strayDelta []).1 rfl rfl,
          (stream_accumulator_total {} nilStart []).2.2.1 rfl rfl, ?_⟩
  rw [(stream_accumulator_total {} nilStart
    [strayDelta, nilStart, { type := .delta, delta := "hi" }]).2.2.2.1]
  decide
